import Mathlib

/-
  Verification development for the AbsPresTree repository.

  The definitions below are a shallow embedding of the core of
  `map_tree/make_abs_pres_networkx.py` and `map_tree/make_abs_pres.py`:

  * Python strings are Lean `String`s; the Python `str` methods used by the
    code (`startswith`, `split`, `rstrip`, `replace`, the `in` substring
    test and the `re.sub` sanitization) are modelled as structurally
    recursive functions over the underlying character lists so that every
    definition is executable by kernel reduction.
  * Python dicts are association lists (`List (String × β)`) in insertion
    order, with assignment modelled by `dictInsert` (overwrite in place or
    append at the end).
  * Python sets of strings are duplicate-free `List String` values in some
    iteration order (CPython sets are unordered, so the iteration order is
    a canonical choice); set insertion adds at the end when absent, and
    `len(A.intersection(B))` is the length of `setIntersection A B`.
  * Python `sorted` (a stable sort) is modelled by the stable insertion
    sort `pySorted`.
  * Python floats are modelled as exact rationals `ℚ`.
  * Raising an exception is modelled by `Except String`.
  * The scipy hierarchical-clustering call inside
    `get_absence_presence_matrix` (an external library, not code of this
    repository) is abstracted by its result: the `leaf_order` list of
    column indices it returns.
-/

namespace AbsPresTree

/-! ### Python string primitives -/

/-- `isPre pat s` : the character list `pat` is an initial segment of `s`
(the core of Python's `str.startswith`). -/
def isPre : List Char → List Char → Bool
  | [], _ => true
  | _ :: _, [] => false
  | a :: as, b :: bs => a = b && isPre as bs

/-- Python `s.startswith(pat)`. -/
def pyStartsWith (s pat : String) : Bool := isPre pat.data s.data

/-- `hasSub pat s` : `pat` occurs as a contiguous substring of `s`
(Python's `pat in s`). -/
def hasSub : List Char → List Char → Bool
  | pat, [] => isPre pat []
  | pat, c :: rest => isPre pat (c :: rest) || hasSub pat rest

/-- Accumulator-based splitting of a character list at a separator
character, keeping empty fields (Python `str.split(sep)` with an explicit
separator). -/
def splitFieldsAux (sep : Char) : List Char → List Char → List String
  | acc, [] => [acc.reverse.asString]
  | acc, c :: cs =>
    if c = sep then acc.reverse.asString :: splitFieldsAux sep [] cs
    else splitFieldsAux sep (c :: acc) cs

/-- Python `line.split("\t")`. -/
def pySplitTab (s : String) : List String := splitFieldsAux '\t' [] s.data

/-- The characters Python's `str.rstrip()` strips by default. -/
def isPyWhite (c : Char) : Bool :=
  c = ' ' || c = '\t' || c = '\n' || c = '\r' || c = '\x0b' || c = '\x0c'

/-- Python `s.rstrip()`. -/
def pyRstrip (s : String) : String :=
  ((s.data.reverse.dropWhile isPyWhite).reverse).asString

/-- The sanitization used throughout the module:
`re.sub(r"[^A-Za-z0-9_-]", "", s.replace(" ", "_"))`. -/
def sanitize (s : String) : String :=
  ((s.data.map (fun c => if c = ' ' then '_' else c)).filter
    (fun c => c.isAlphanum || c = '_' || c = '-')).asString

/-- Fuel-indexed deletion of every (non-overlapping, leftmost-first)
occurrence of `pat`; the fuel is the length of the scanned list, so the
fuel can never run out. -/
def removeAllAux (pat : List Char) : Nat → List Char → List Char
  | _, [] => []
  | 0, cs => cs
  | fuel + 1, c :: cs =>
    if !pat.isEmpty && isPre pat (c :: cs)
    then removeAllAux pat fuel ((c :: cs).drop pat.length)
    else c :: removeAllAux pat fuel cs

/-- Python `s.replace(pat, "")`. -/
def pyRemoveAll (s pat : String) : String :=
  (removeAllAux pat.data s.data.length s.data).asString

/-- Lexicographic comparison of character lists by code point, the order
Python uses to compare strings (equivalent to Lean's `String` order, but
structurally recursive). -/
def charListLe : List Char → List Char → Bool
  | [], _ => true
  | _ :: _, [] => false
  | a :: as, b :: bs => if a = b then charListLe as bs else decide (a < b)

/-- Python `a <= b` on strings. -/
def pyStrLe (a b : String) : Bool := charListLe a.data b.data

/-! ### Python containers -/

/-- Python dict assignment `d[k] = v` on an insertion-ordered association
list: overwrite in place if the key exists, else append. -/
def dictInsert {β : Type} (d : List (String × β)) (k : String) (v : β) :
    List (String × β) :=
  if d.any (fun p => p.1 = k)
  then d.map (fun p => if p.1 = k then (k, v) else p)
  else d ++ [(k, v)]

/-- Python dict lookup with a default (total model of `d[k]`; the callers
below only ever use it at keys that are present). -/
def lookupD {β : Type} (d : List (String × β)) (k : String) (dflt : β) : β :=
  match d.find? (fun p => p.1 = k) with
  | some p => p.2
  | none => dflt

/-- Insert `x` into a list in front of the first element `y` with
`le x y`; auxiliary step of the stable insertion sort. -/
def pyIns {α : Type} (le : α → α → Bool) (x : α) : List α → List α
  | [] => [x]
  | y :: ys => if le x y then x :: y :: ys else y :: pyIns le x ys

/-- Stable sort with respect to the (total) boolean relation `le`, the
model of Python's stable `sorted`. -/
def pySorted {α : Type} (le : α → α → Bool) : List α → List α
  | [] => []
  | x :: xs => pyIns le x (pySorted le xs)

/-- Keep the first occurrence of every element (pandas
`drop_duplicates()` / the deduplication of dict-key assignment),
accumulating the elements already seen. -/
def dedupFirstAux {α : Type} [DecidableEq α] (seen : List α) : List α → List α
  | [] => []
  | x :: xs =>
    if seen.any (fun y => y = x) then dedupFirstAux seen xs
    else x :: dedupFirstAux (x :: seen) xs

/-- Keep the first occurrence of every element of `l`. -/
def dedupFirst {α : Type} [DecidableEq α] (l : List α) : List α :=
  dedupFirstAux [] l

/-- Python set insertion `s.add(x)` on the list model of sets: append when
absent. -/
def setAdd (s : List String) (x : String) : List String :=
  if s.any (fun y => y = x) then s else s ++ [x]

/-- Python `A.intersection(B)` on the list model of sets: the members of
`A` that are also in `B`. -/
def setIntersection (xs ys : List String) : List String :=
  xs.filter (fun x => ys.any (fun y => y = x))

/-- Python set union `A | B` on the list model of sets: the members of `B`
followed by the members of `A` not already in `B`. -/
def setUnion (xs ys : List String) : List String :=
  ys ++ xs.filter (fun x => !(ys.any (fun y => y = x)))

/-! ### NetworkMerger (`merge_all_bigscape_networks`) -/

/-- One row of the concatenated `.network` tables, restricted to the three
columns the code keeps: `Clustername 1`, `Clustername 2`, `Raw distance`. -/
structure NetworkRow where
  clustername1 : String
  clustername2 : String
  rawDistance : ℚ
deriving DecidableEq

/-- The `Match_name` key column:
`network_values['Clustername 1'] + network_values['Clustername 2']`
(bare string concatenation, no separator and no sorting of the pair). -/
def matchName (r : NetworkRow) : String := r.clustername1 ++ r.clustername2

/-- The rows of one `groupby('Match_name')` group. -/
def groupRows (rows : List NetworkRow) (key : String) : List NetworkRow :=
  rows.filter (fun r => matchName r = key)

/-- The `groupby('Match_name')['Raw distance'].mean()` value of a group. -/
def groupMeanDistance (rows : List NetworkRow) (key : String) : ℚ :=
  ((groupRows rows key).map NetworkRow.rawDistance).sum /
    ((groupRows rows key).length : ℚ)

/-- `merge_all_bigscape_networks`, applied to the concatenation of all the
loaded `.network` tables: every row's `Raw distance` is replaced by its
`Match_name` group's mean (the inner join on `Match_name`), then exact
duplicate rows are dropped keeping the first (`drop_duplicates()`). -/
def merge_all_bigscape_networks (rows : List NetworkRow) : List NetworkRow :=
  dedupFirst (rows.map
    (fun r => ⟨r.clustername1, r.clustername2, groupMeanDistance rows (matchName r)⟩))

/-- The rows of a merged table pairing `a` with `b` in either column
order (the unordered-pair reading used by the specification). -/
def unorderedPairRows (rows : List NetworkRow) (a b : String) : List NetworkRow :=
  rows.filter (fun r =>
    (r.clustername1 = a ∧ r.clustername2 = b) ∨
      (r.clustername1 = b ∧ r.clustername2 = a))

/-- The rows of a merged table whose two columns are exactly `(a, b)` in
this order. -/
def orderedPairRows (rows : List NetworkRow) (a b : String) : List NetworkRow :=
  rows.filter (fun r => r.clustername1 = a ∧ r.clustername2 = b)

/-! ### FamilyDetector (`get_connected_from_df`) -/

/-- A connected group of clusters with its compound-class label
(`CompoundFamily` in the source). -/
structure CompoundFamily where
  compound_class : String
  clusters : List String
deriving DecidableEq

/-- Length of a `CompoundFamily` (`__len__`): number of member clusters. -/
def CompoundFamily.len (f : CompoundFamily) : Nat := f.clusters.length

/-- Merge step of union-by-edge connected components: all current
components touching `a` or `b` fuse with `{a, b}`. -/
def insertEdgeComp (comps : List (List String)) (a b : String) :
    List (List String) :=
  (comps.filter (fun c => a ∈ c ∨ b ∈ c)).foldl setUnion (dedupFirst [a, b]) ::
    comps.filter (fun c => ¬ (a ∈ c ∨ b ∈ c))

/-- Connected components of the undirected graph whose nodes are the edge
endpoints (`nx.from_pandas_edgelist` + `nx.connected_components`). -/
def connectedComponents (edges : List (String × String)) : List (List String) :=
  edges.foldl (fun comps e => insertEdgeComp comps e.1 e.2) []

/-- The compound type of one component:
`"_".join({cluster_types[component] for component in components})`,
the distinct types in iteration order joined by `_`. -/
def compoundType (cluster_types : String → String) (comp : List String) : String :=
  String.intercalate "_" (dedupFirst (comp.map cluster_types))

/-- `get_connected_from_df`: extract the connected components of the
merged edge table, discard every component all of whose members start
with `"BGC"`, and label the survivors with their compound type. -/
def get_connected_from_df (network_df : List NetworkRow)
    (cluster_types : String → String) : List CompoundFamily :=
  ((connectedComponents
      (network_df.map (fun r => (r.clustername1, r.clustername2)))).filter
    (fun comp => ¬ (comp.all (fun c => pyStartsWith c "BGC")))).map
    (fun comp => ⟨compoundType cluster_types comp, comp⟩)

/-! ### FamilyNamer (`get_families`) -/

/-- The inner loop of `get_families`: starting from the base name, walk
the member clusters and for every member starting with `"BGC"` whose
display name is not yet a substring of the name built so far, append
`"_" + bgc_names[component]`. -/
def build_family_name (bgc_names : String → String) :
    String → List String → String
  | family_name, [] => family_name
  | family_name, component :: rest =>
    if pyStartsWith component "BGC" &&
        !(hasSub (bgc_names component).data family_name.data)
    then build_family_name bgc_names (family_name ++ "_" ++ bgc_names component) rest
    else build_family_name bgc_names family_name rest

/-- The final name of the family ranked `index` (ranks start at 1):
`str(index) + "_" + components.compound_class` plus the appended display
names. -/
def family_name_for (bgc_names : String → String) (index : Nat)
    (components : CompoundFamily) : String :=
  build_family_name bgc_names
    (Nat.repr index ++ "_" ++ components.compound_class)
    components.clusters

/-- `sorted(connected_families, key=len, reverse=True)`: stable sort by
descending member count. -/
def sort_families_desc (fams : List CompoundFamily) : List CompoundFamily :=
  pySorted (fun a b => b.clusters.length ≤ a.clusters.length) fams

/-- The `(rank, family)` pairs in processing order (`enumerate(..., start=1)`
applied to the sorted list). -/
def ranked_families (fams : List CompoundFamily) : List (Nat × CompoundFamily) :=
  (sort_families_desc fams).enum.map (fun ic => (ic.1 + 1, ic.2))

/-- The list of final family names in processing order. -/
def assigned_names (fams : List CompoundFamily) (bgc_names : String → String) :
    List String :=
  (ranked_families fams).map (fun ic => family_name_for bgc_names ic.1 ic.2)

/-- `get_families`: build the `families_names` dict by assigning
`families_names[family_name] = components.clusters` for every ranked
family in order. -/
def get_families (connected_families : List CompoundFamily)
    (bgc_names : String → String) : List (String × List String) :=
  (ranked_families connected_families).foldl
    (fun d ic => dictInsert d (family_name_for bgc_names ic.1 ic.2) ic.2.clusters) []

/-! ### SummaryParser (`map_clusters_to_names`) -/

/-- The accumulated state of the summary-file loop. -/
structure SummaryState where
  genomes_with_clusters : List (String × List String)
  bgcs_with_names : List (String × String)
  clusters_with_types : List (String × String)
  wrong_line_format : Bool
deriving DecidableEq

/-- Python list indexing `line[i]`, raising `IndexError` when out of
range. -/
def pyIndex (line : List String) (i : Nat) : Except String String :=
  match line.get? i with
  | some v => .ok v
  | none => .error "IndexError: list index out of range"

/-- `genomes_with_clusters[genome] = {cluster}` / `.add(cluster)`. -/
def add_genome_cluster (genomes : List (String × List String))
    (genome cluster : String) : List (String × List String) :=
  if genomes.any (fun p => p.1 = genome)
  then genomes.map (fun p => if p.1 = genome then (p.1, setAdd p.2 cluster) else p)
  else genomes ++ [(genome, [cluster])]

/-- The loop body of `map_clusters_to_names` for one raw line. -/
def process_summary_line (st : SummaryState) (raw : String) :
    Except String SummaryState := do
  let line := pySplitTab (pyRstrip raw)
  let wrong := st.wrong_line_format || line.length ≠ 7
  let cluster ← pyIndex line 0
  if pyStartsWith cluster "BGC" then do
    let field2 ← pyIndex line 2
    let cluster_name := sanitize (pyRemoveAll field2 " biosynthetic gene cluster")
    let metabolite_type ← pyIndex line 4
    pure { st with
      bgcs_with_names := dictInsert st.bgcs_with_names cluster cluster_name,
      clusters_with_types := dictInsert st.clusters_with_types cluster metabolite_type,
      wrong_line_format := wrong }
  else do
    let field5 ← pyIndex line 5
    let genome := sanitize field5
    let metabolite_type ← pyIndex line 4
    pure { st with
      genomes_with_clusters := add_genome_cluster st.genomes_with_clusters genome cluster,
      clusters_with_types := dictInsert st.clusters_with_types cluster metabolite_type,
      wrong_line_format := wrong }

/-- The summary-file loop over the remaining lines. -/
def parse_summary_lines (st : SummaryState) :
    List String → Except String SummaryState
  | [] => .ok st
  | l :: ls => do parse_summary_lines (← process_summary_line st l) ls

/-- The empty initial state of the loop. -/
def initSummaryState : SummaryState := ⟨[], [], [], false⟩

/-- `map_clusters_to_names` on the list of data lines of the summary file
(file reading abstracted; the lines are the file's lines up to the first
empty one, without terminators). The fourth component records whether the
single aggregated nonstandard-column-count warning is emitted after the
loop. -/
def map_clusters_to_names (lines : List String) :
    Except String
      (List (String × List String) × List (String × String) ×
        List (String × String) × Bool) := do
  match lines with
  | [] => .error "Header line of summary file missing."
  | header :: rest =>
    if pyStartsWith header "BGC" then do
      let st ← parse_summary_lines initSummaryState rest
      pure (st.genomes_with_clusters, st.bgcs_with_names,
        st.clusters_with_types, st.wrong_line_format)
    else .error "Header line of summary file missing."

/-! ### MatrixBuilder and serialization -/

/-- `sorted(clusters_in_genomes.items())`: genomes in ascending key
order (keys are unique in a dict, so the tuple comparison never reaches
the values). -/
def sortGenomes (clusters_in_genomes : List (String × List String)) :
    List (String × List String) :=
  pySorted (fun a b => pyStrLe a.1 b.1) clusters_in_genomes

/-- The per-genome counts of one family column:
`[len(clusters.intersection(families_with_names[family]))
  for genomes, clusters in sorted(clusters_in_genomes.items())]`. -/
def abs_pres_counts (families_with_names clusters_in_genomes :
    List (String × List String)) (family : String) : List Nat :=
  (sortGenomes clusters_in_genomes).map
    (fun g => (setIntersection g.2 (lookupD families_with_names family [])).length)

/-- One data row of `DataFrame.to_csv()`: the genome name, the counts in
column order, comma separated, terminated by a newline. -/
def matrix_row_csv (families_with_names : List (String × List String))
    (cols : List String) (g : String × List String) : String :=
  g.1 ++ "," ++
    String.intercalate ","
      (cols.map (fun f => Nat.repr ((setIntersection g.2 (lookupD families_with_names f [])).length))) ++
    "\n"

/-- `DataFrame.to_csv()` of the absence/presence frame: an empty index
label, the column names, then one row per genome in ascending name order,
every line (the last included) terminated by a newline. -/
def matrix_csv (families_with_names clusters_in_genomes :
    List (String × List String)) (cols : List String) : String :=
  "," ++ String.intercalate "," cols ++ "\n" ++
    String.join ((sortGenomes clusters_in_genomes).map
      (matrix_row_csv families_with_names cols))

/-- The reordered column list of `get_absence_presence_matrix`: the
sorted family names rearranged by the leaf order that the scipy
hierarchical-clustering call returns (external library, abstracted by its
output `leaf_order`). -/
def abs_pres_columns (families_with_names : List (String × List String))
    (leaf_order : List Nat) : List String :=
  leaf_order.filterMap
    (fun i => (pySorted pyStrLe (families_with_names.map Prod.fst)).get? i)

/-- `get_absence_presence_matrix`: the family columns are the sorted
family names rearranged by `leaf_order`, and the result is `"#NAMES"`
prepended to the CSV serialization. -/
def get_absence_presence_matrix (families_with_names clusters_in_genomes :
    List (String × List String)) (leaf_order : List Nat) : String :=
  "#NAMES" ++
    matrix_csv families_with_names clusters_in_genomes
      (abs_pres_columns families_with_names leaf_order)

/-- The `families_by_order` list of `get_preordered_matrix`: for every
order token, every family name starting with `token + "_"`, in token
order. -/
def families_by_order (families_with_names : List (String × List String))
    (family_order : List String) : List String :=
  family_order.flatMap
    (fun number => (families_with_names.map Prod.fst).filter
      (fun x => pyStartsWith x (number ++ "_")))

/-- `get_preordered_matrix`: after the length validation, serialize the
matrix with the explicitly ordered columns (duplicate selections collapse
to their first occurrence when the `OrderedDict` is keyed). -/
def get_preordered_matrix (families_with_names clusters_in_genomes :
    List (String × List String)) (family_order : List String) :
    Except String String :=
  if families_with_names.length = family_order.length then
    .ok ("#NAMES" ++
      matrix_csv families_with_names clusters_in_genomes
        (dedupFirst (families_by_order families_with_names family_order)))
  else
    .error "Length of family order list must match amount of families."

/-- The duplicate-collecting loop of `parse_family_order`. -/
def order_duplicates (seen : List String) : List String → List String
  | [] => []
  | n :: ns =>
    if seen.any (fun x => x = n) then n :: order_duplicates (n :: seen) ns
    else order_duplicates (n :: seen) ns

/-- `parse_family_order` applied to the single line of the order file:
split on commas and fail when any token repeats. -/
def parse_family_order (first_line : String) : Except String (List String) :=
  let family_numbers := splitFieldsAux ',' [] (pyRstrip first_line).data
  if (order_duplicates [] family_numbers).isEmpty then .ok family_numbers
  else
    .error ("Family order list contains duplicates: " ++
      String.intercalate ", " (order_duplicates [] family_numbers))

/-! ### The tab-separated variant (`make_abs_pres.py`, `bigscape_to_matrix`) -/

/-- One genome row of the tab-separated matrix: a leading newline (rows
are prepended with `"\n"` precisely to avoid a trailing newline), the
genome name, and the counts joined by tabs. -/
def bigscape_matrix_row_tab (families_with_clusters :
    List (String × List String)) (all_families : List String)
    (g : String × List String) : String :=
  "\n" ++ g.1 ++ "\t" ++
    String.intercalate "\t"
      (all_families.map
        (fun fam => Nat.repr ((setIntersection g.2 (lookupD families_with_clusters fam [])).length)))

/-- The matrix-string construction of `bigscape_to_matrix` (lines
139–147): header `"#NAMES\t"` plus the family names, then one row per
genome in ascending name order. -/
def bigscape_matrix_string (all_families : List String)
    (families_with_clusters clusters_in_genomes :
      List (String × List String)) : String :=
  (sortGenomes clusters_in_genomes).foldl
    (fun acc g => acc ++ bigscape_matrix_row_tab families_with_clusters all_families g)
    ("#NAMES\t" ++ String.intercalate "\t" all_families)


/-- The possibility asserted by the specification's collision claim: some
input to `get_families` loses entries because two distinct families
receive the same final name. -/
def get_families_can_drop_families : Prop :=
  ∃ (fams : List CompoundFamily) (bgc_names : String → String),
    (get_families fams bgc_names).length < fams.length

/-- The row shapes on which the summary loop body cannot raise: rows whose
first field carries the reference prefix access the third and fifth fields
(so at least 5 fields are needed), other rows access the sixth and fifth
(at least 6). -/
def goodSummaryRow (raw : String) : Prop :=
  if pyStartsWith ((pySplitTab (pyRstrip raw)).headD "") "BGC" = true
  then 5 ≤ (pySplitTab (pyRstrip raw)).length
  else 6 ≤ (pySplitTab (pyRstrip raw)).length

instance (raw : String) : Decidable (goodSummaryRow raw) := by
  unfold goodSummaryRow
  infer_instance

/-- The invariant of the summary loop: genome cluster sets hold only
non-reference ids, and the display-name mapping is keyed only by
reference ids. -/
def summaryInv (st : SummaryState) : Prop :=
  (∀ p ∈ st.genomes_with_clusters, ∀ c ∈ p.2, pyStartsWith c "BGC" = false) ∧
    ∀ p ∈ st.bgcs_with_names, pyStartsWith p.1 "BGC" = true

/-! ## Helper lemmas -/

theorem mem_dedupFirstAux {α : Type} [DecidableEq α] (l : List α) (seen : List α)
    (x : α) : x ∈ dedupFirstAux seen l ↔ x ∈ l ∧ x ∉ seen := by
  induction l generalizing seen with
  | nil => simp [dedupFirstAux]
  | cons y ys ih =>
    by_cases h : y ∈ seen
    · have hany : seen.any (fun z => decide (z = y)) = true := by
        simp only [List.any_eq_true, decide_eq_true_eq]
        exact ⟨y, h, rfl⟩
      simp only [dedupFirstAux, hany, if_pos]
      rw [ih]
      constructor
      · rintro ⟨hx, hn⟩; exact ⟨List.mem_cons_of_mem _ hx, hn⟩
      · rintro ⟨hx, hn⟩
        rcases List.mem_cons.mp hx with rfl | hx
        · exact absurd h hn
        · exact ⟨hx, hn⟩
    · have hany : seen.any (fun z => decide (z = y)) = false := by
        simp only [List.any_eq_false, decide_eq_true_eq]
        rintro z hz rfl; exact h hz
      simp only [dedupFirstAux, hany, Bool.false_eq_true, if_false, List.mem_cons]
      rw [ih]
      constructor
      · rintro (rfl | ⟨hx, hn⟩)
        · exact ⟨Or.inl rfl, h⟩
        · exact ⟨Or.inr hx, fun hc => hn (List.mem_cons_of_mem _ hc)⟩
      · rintro ⟨rfl | hx, hn⟩
        · exact Or.inl rfl
        · by_cases hxy : x = y
          · exact Or.inl hxy
          · exact Or.inr ⟨hx, by simp [List.mem_cons, hxy, hn]⟩

theorem mem_dedupFirst {α : Type} [DecidableEq α] (l : List α) (x : α) :
    x ∈ dedupFirst l ↔ x ∈ l := by
  simp [dedupFirst, mem_dedupFirstAux]

theorem nodup_dedupFirstAux {α : Type} [DecidableEq α] (l : List α)
    (seen : List α) : (dedupFirstAux seen l).Nodup := by
  induction l generalizing seen with
  | nil => simp [dedupFirstAux]
  | cons y ys ih =>
    by_cases h : seen.any (fun z => decide (z = y)) = true
    · simpa [dedupFirstAux, h] using ih seen
    · rw [dedupFirstAux, if_neg h]
      refine List.nodup_cons.mpr ⟨?_, ih (y :: seen)⟩
      intro hmem
      exact ((mem_dedupFirstAux ys (y :: seen) y).mp hmem).2 (List.mem_cons_self y seen)

theorem nodup_dedupFirst {α : Type} [DecidableEq α] (l : List α) :
    (dedupFirst l).Nodup := nodup_dedupFirstAux l []

theorem length_eq_one_of_nodup_of_all_eq {α : Type} {l : List α} {v : α}
    (hnd : l.Nodup) (hall : ∀ x ∈ l, x = v) (hv : v ∈ l) : l.length = 1 := by
  match l, hv with
  | x :: xs, _ =>
    have hx : x = v := hall x (List.mem_cons_self x xs)
    match xs with
    | [] => rfl
    | y :: ys =>
      have hy : y = v := hall y (List.mem_cons_of_mem _ (List.mem_cons_self y ys))
      exfalso
      exact (List.nodup_cons.mp hnd).1 (hx ▸ hy ▸ List.mem_cons_self y ys)

/-- The core of the amended merging claim: for every ordered pair that
occurs among the input rows, the merged table has exactly one row with
those two cluster columns, and its distance is the mean over the rows
whose concatenation key equals the pair's concatenation. -/
theorem merge_one_row_per_ordered_pair (rows : List NetworkRow) (a b : String)
    (h : ∃ r ∈ rows, r.clustername1 = a ∧ r.clustername2 = b) :
    (orderedPairRows (merge_all_bigscape_networks rows) a b).length = 1 ∧
      ∀ r ∈ orderedPairRows (merge_all_bigscape_networks rows) a b,
        r.rawDistance = groupMeanDistance rows (a ++ b) := by
  obtain ⟨r0, hr0, h1, h2⟩ := h
  set v : NetworkRow := ⟨a, b, groupMeanDistance rows (a ++ b)⟩ with hv
  have hall : ∀ x ∈ orderedPairRows (merge_all_bigscape_networks rows) a b, x = v := by
    intro x hx
    have hx' := List.mem_filter.mp hx
    have hxmem := (mem_dedupFirst _ x).mp hx'.1
    obtain ⟨r, _, hr⟩ := List.mem_map.mp hxmem
    have hcl : x.clustername1 = a ∧ x.clustername2 = b := by
      have := hx'.2
      simpa [decide_eq_true_eq] using this
    have e1 : r.clustername1 = a := by rw [← hcl.1, ← hr]
    have e2 : r.clustername2 = b := by rw [← hcl.2, ← hr]
    rw [← hr, hv]
    simp [matchName, e1, e2]
  have hvmem : v ∈ orderedPairRows (merge_all_bigscape_networks rows) a b := by
    apply List.mem_filter.mpr
    constructor
    · apply (mem_dedupFirst _ v).mpr
      apply List.mem_map.mpr
      refine ⟨r0, hr0, ?_⟩
      simp [matchName, h1, h2, hv]
    · simp [hv]
  have hnd : (orderedPairRows (merge_all_bigscape_networks rows) a b).Nodup :=
    List.Nodup.filter _ (nodup_dedupFirst _)
  refine ⟨length_eq_one_of_nodup_of_all_eq hnd hall hvmem, ?_⟩
  intro r hr
  rw [hall r hr, hv]

/-- The claim's own concrete example, evaluated: the two rows pairing
`Cluster_1` with `Cluster_2` (in the same column order) at distances 0.3
and 0.4 have group mean 0.35. -/
theorem groupMeanDistance_example :
    groupMeanDistance
      [⟨"Cluster_1", "Cluster_2", 3/10⟩, ⟨"Cluster_1", "Cluster_2", 2/5⟩]
      ("Cluster_1" ++ "Cluster_2") = 7/20 := by
  have h : groupRows
      [⟨"Cluster_1", "Cluster_2", 3/10⟩, ⟨"Cluster_1", "Cluster_2", 2/5⟩]
      ("Cluster_1" ++ "Cluster_2") =
      [⟨"Cluster_1", "Cluster_2", 3/10⟩, ⟨"Cluster_1", "Cluster_2", 2/5⟩] := rfl
  rw [groupMeanDistance, h]
  norm_num

theorem setIntersection_length_eq_card_inter (xs ys : List String)
    (h : xs.Nodup) :
    (setIntersection xs ys).length = (xs.toFinset ∩ ys.toFinset).card := by
  have hp : ∀ x : String, (ys.any (fun y => decide (y = x)) = true) ↔ x ∈ ys.toFinset := by
    intro x
    simp only [List.any_eq_true, decide_eq_true_eq, List.mem_toFinset]
    constructor
    · rintro ⟨y, hy, rfl⟩; exact hy
    · intro hx; exact ⟨x, hx, rfl⟩
  have hnd : (setIntersection xs ys).Nodup := List.Nodup.filter _ h
  rw [← List.toFinset_card_of_nodup hnd]
  congr 1
  rw [setIntersection, List.toFinset_filter]
  ext x
  simp only [Finset.mem_filter, Finset.mem_inter, List.mem_toFinset]
  rw [hp x]
  simp [List.mem_toFinset]

theorem isPre_refl (l : List Char) : isPre l l = true := by
  induction l with
  | nil => rfl
  | cons a as ih => simp [isPre, ih]

theorem isPre_append_right (pat s t : List Char) (h : isPre pat s = true) :
    isPre pat (s ++ t) = true := by
  induction pat generalizing s with
  | nil => rfl
  | cons a as ih =>
    match s with
    | [] => exact absurd h (by simp [isPre])
    | b :: bs =>
      simp only [isPre, Bool.and_eq_true] at h
      simpa [isPre, h.1] using ih bs h.2

theorem hasSub_nil (s : List Char) : hasSub [] s = true := by
  match s with
  | [] => rfl
  | c :: rest => simp [hasSub, isPre]

theorem hasSub_append_right (pat s t : List Char) (h : hasSub pat s = true) :
    hasSub pat (s ++ t) = true := by
  induction s with
  | nil =>
    have : pat = [] := by
      match pat with
      | [] => rfl
      | p :: ps => exact absurd h (by simp [hasSub, isPre])
    subst this
    exact hasSub_nil t
  | cons c cs ih =>
    simp only [hasSub, Bool.or_eq_true] at h
    rcases h with h | h
    · have := isPre_append_right pat (c :: cs) t h
      simp only [List.cons_append] at this ⊢
      simp [hasSub, this]
    · have := ih h
      simp [hasSub, this]

theorem hasSub_append_self (pat l : List Char) : hasSub pat (l ++ pat) = true := by
  induction l with
  | nil =>
    match pat with
    | [] => rfl
    | p :: ps => simp [hasSub, isPre_refl]
  | cons x xs ih => simp [hasSub, ih]

theorem hasSub_str_append (pat : List Char) (s t : String)
    (h : hasSub pat s.data = true) : hasSub pat (s ++ t).data = true := by
  rw [String.data_append]
  exact hasSub_append_right _ _ _ h

theorem build_family_name_mono (bgc_names : String → String) (pat : List Char)
    (mems : List String) (name : String) (h : hasSub pat name.data = true) :
    hasSub pat (build_family_name bgc_names name mems).data = true := by
  induction mems generalizing name with
  | nil => exact h
  | cons comp rest ih =>
    rw [build_family_name]
    by_cases hc : (pyStartsWith comp "BGC" &&
        !(hasSub (bgc_names comp).data name.data)) = true
    · rw [if_pos hc]
      exact ih _ (hasSub_str_append _ _ _ (hasSub_str_append _ _ _ h))
    · rw [if_neg hc]
      exact ih _ h

theorem build_family_name_contains (bgc_names : String → String)
    (mems : List String) (name : String) (m : String) (hm : m ∈ mems)
    (hbgc : pyStartsWith m "BGC" = true) :
    hasSub (bgc_names m).data (build_family_name bgc_names name mems).data = true := by
  induction mems generalizing name with
  | nil => cases hm
  | cons comp rest ih =>
    rw [build_family_name]
    rcases List.mem_cons.mp hm with rfl | hm'
    · by_cases hsub : hasSub (bgc_names m).data name.data = true
      · by_cases hc : (pyStartsWith m "BGC" &&
            !(hasSub (bgc_names m).data name.data)) = true
        · rw [if_pos hc]
          exact build_family_name_mono _ _ _ _
            (hasSub_str_append _ _ _ (hasSub_str_append _ _ _ hsub))
        · rw [if_neg hc]
          exact build_family_name_mono _ _ _ _ hsub
      · have hc : (pyStartsWith m "BGC" &&
            !(hasSub (bgc_names m).data name.data)) = true := by
          rw [hbgc, Bool.true_and, Bool.not_eq_true']
          exact Bool.eq_false_iff.mpr hsub
        rw [if_pos hc]
        refine build_family_name_mono _ _ _ _ ?_
        have hdata : (name ++ "_" ++ bgc_names m).data =
            (name.data ++ ('_' :: [])) ++ (bgc_names m).data := by
          rw [String.data_append, String.data_append]
        rw [hdata]
        exact hasSub_append_self _ _
    · by_cases hc : (pyStartsWith comp "BGC" &&
          !(hasSub (bgc_names comp).data name.data)) = true
      · rw [if_pos hc]; exact ih _ hm'
      · rw [if_neg hc]; exact ih _ hm'

theorem pyIns_perm {α : Type} (le : α → α → Bool) (x : α) (l : List α) :
    (pyIns le x l).Perm (x :: l) := by
  induction l with
  | nil => exact List.Perm.refl _
  | cons y ys ih =>
    rw [pyIns]
    by_cases h : le x y = true
    · rw [if_pos h]
    · rw [if_neg h]
      exact (List.Perm.cons y ih).trans (List.Perm.swap x y ys)

theorem pySorted_perm {α : Type} (le : α → α → Bool) (l : List α) :
    (pySorted le l).Perm l := by
  induction l with
  | nil => exact List.Perm.refl _
  | cons x xs ih =>
    rw [pySorted]
    exact (pyIns_perm le x (pySorted le xs)).trans (List.Perm.cons x ih)

theorem pyIns_pairwise {α : Type} (le : α → α → Bool)
    (htrans : ∀ a b c, le a b = true → le b c = true → le a c = true)
    (htotal : ∀ a b, le a b = true ∨ le b a = true) (x : α) (l : List α)
    (h : l.Pairwise (fun a b => le a b = true)) :
    (pyIns le x l).Pairwise (fun a b => le a b = true) := by
  induction l with
  | nil => simp [pyIns]
  | cons y ys ih =>
    rw [pyIns]
    rcases List.pairwise_cons.mp h with ⟨hy, hys⟩
    by_cases hxy : le x y = true
    · rw [if_pos hxy]
      refine List.pairwise_cons.mpr ⟨?_, h⟩
      intro a ha
      rcases List.mem_cons.mp ha with rfl | ha'
      · exact hxy
      · exact htrans x y a hxy (hy a ha')
    · rw [if_neg hxy]
      have hyx : le y x = true := (htotal x y).resolve_left hxy
      refine List.pairwise_cons.mpr ⟨?_, ih hys⟩
      intro a ha
      have : a ∈ x :: ys := (pyIns_perm le x ys).mem_iff.mp ha
      rcases List.mem_cons.mp this with rfl | ha'
      · exact hyx
      · exact hy a ha'

theorem pySorted_pairwise {α : Type} (le : α → α → Bool)
    (htrans : ∀ a b c, le a b = true → le b c = true → le a c = true)
    (htotal : ∀ a b, le a b = true ∨ le b a = true) (l : List α) :
    (pySorted le l).Pairwise (fun a b => le a b = true) := by
  induction l with
  | nil => simp [pySorted]
  | cons x xs ih =>
    rw [pySorted]
    exact pyIns_pairwise le htrans htotal x _ ih

theorem digitChar_isDigit {d : Nat} (h : d < 10) :
    (Nat.digitChar d).isDigit = true := by
  interval_cases d <;> decide

theorem digitChar_toNat {d : Nat} (h : d < 10) :
    (Nat.digitChar d).toNat - 48 = d := by
  interval_cases d <;> decide

theorem toDigitsCore_eq_digits :
    ∀ (fuel n : Nat) (acc : List Char), n < fuel → n ≠ 0 →
      Nat.toDigitsCore 10 fuel n acc =
        ((Nat.digits 10 n).map Nat.digitChar).reverse ++ acc := by
  intro fuel
  induction fuel with
  | zero => intro n acc h _; omega
  | succ fuel ih =>
    intro n acc hlt hne
    simp only [Nat.toDigitsCore]
    by_cases h10 : n / 10 = 0
    · rw [if_pos h10]
      have hsmall : n < 10 := by omega
      rw [Nat.digits_def' (by norm_num : (1:ℕ) < 10) (Nat.pos_of_ne_zero hne), h10]
      simp
    · rw [if_neg h10]
      have hdiv_lt : n / 10 < fuel := by
        have h1 : n / 10 < n := Nat.div_lt_self (Nat.pos_of_ne_zero hne) (by norm_num)
        omega
      rw [ih (n / 10) (Nat.digitChar (n % 10) :: acc) hdiv_lt h10]
      rw [Nat.digits_def' (by norm_num : (1:ℕ) < 10) (Nat.pos_of_ne_zero hne)]
      simp

theorem repr_eq_digits (n : Nat) (h : n ≠ 0) :
    (Nat.repr n).data = ((Nat.digits 10 n).map Nat.digitChar).reverse := by
  show (Nat.toDigits 10 n).asString.data = _
  rw [Nat.toDigits, toDigitsCore_eq_digits (n + 1) n [] (Nat.lt_succ_self n) h]
  simp [List.asString]

theorem repr_data_isDigit (n : Nat) : ∀ c ∈ (Nat.repr n).data, c.isDigit = true := by
  by_cases h : n = 0
  · subst h; decide
  · rw [repr_eq_digits n h]
    intro c hc
    rw [List.mem_reverse] at hc
    obtain ⟨d, hd, rfl⟩ := List.mem_map.mp hc
    exact digitChar_isDigit (Nat.digits_lt_base (by norm_num) hd)

theorem map_digitChar_cancel (l : List Nat) (h : ∀ d ∈ l, d < 10) :
    (l.map Nat.digitChar).map (fun c => c.toNat - 48) = l := by
  induction l with
  | nil => rfl
  | cons d ds ih =>
    simp only [List.map_cons, List.cons.injEq]
    exact ⟨digitChar_toNat (h d (List.mem_cons_self d ds)),
      ih (fun x hx => h x (List.mem_cons_of_mem _ hx))⟩

theorem repr_inj_of_ne_zero {m n : Nat} (hm : m ≠ 0) (hn : n ≠ 0)
    (h : Nat.repr m = Nat.repr n) : m = n := by
  have hdata := congrArg String.data h
  rw [repr_eq_digits m hm, repr_eq_digits n hn] at hdata
  have hmap : (Nat.digits 10 m).map Nat.digitChar =
      (Nat.digits 10 n).map Nat.digitChar :=
    List.reverse_injective hdata
  have hcancel := congrArg (List.map (fun c : Char => c.toNat - 48)) hmap
  rw [map_digitChar_cancel _ (fun d hd => Nat.digits_lt_base (by norm_num) hd),
    map_digitChar_cancel _ (fun d hd => Nat.digits_lt_base (by norm_num) hd)]
    at hcancel
  calc m = Nat.ofDigits 10 (Nat.digits 10 m) := (Nat.ofDigits_digits 10 m).symm
    _ = Nat.ofDigits 10 (Nat.digits 10 n) := by rw [hcancel]
    _ = n := Nat.ofDigits_digits 10 n

theorem takeWhile_append_stop {α : Type} (p : α → Bool) (l r : List α) (c : α)
    (hl : ∀ x ∈ l, p x = true) (hc : p c = false) :
    (l ++ c :: r).takeWhile p = l ∧ (l ++ c :: r).dropWhile p = c :: r := by
  induction l with
  | nil => simp [List.takeWhile, List.dropWhile, hc]
  | cons x xs ih =>
    have hx : p x = true := hl x (List.mem_cons_self x xs)
    have := ih (fun y hy => hl y (List.mem_cons_of_mem _ hy))
    simp only [List.cons_append, List.takeWhile, List.dropWhile, hx, List.append_eq]
    exact ⟨by rw [this.1], this.2⟩

theorem repr_underscore_inj {m n : Nat} {s t : List Char} (hm : m ≠ 0)
    (hn : n ≠ 0)
    (h : (Nat.repr m).data ++ '_' :: s = (Nat.repr n).data ++ '_' :: t) :
    m = n ∧ s = t := by
  have hu : ('_' : Char).isDigit = false := by decide
  have h1 := takeWhile_append_stop Char.isDigit (Nat.repr m).data s '_'
    (repr_data_isDigit m) hu
  have h2 := takeWhile_append_stop Char.isDigit (Nat.repr n).data t '_'
    (repr_data_isDigit n) hu
  have htake : (Nat.repr m).data = (Nat.repr n).data := by
    rw [← h1.1, ← h2.1, h]
  have hdrop : ('_' :: s : List Char) = '_' :: t := by
    rw [← h1.2, ← h2.2, h]
  refine ⟨repr_inj_of_ne_zero hm hn (String.ext htake), ?_⟩
  injection hdrop

theorem build_family_name_shape (bgc_names : String → String)
    (mems : List String) (name : String) :
    ∃ suffix : List Char,
      (build_family_name bgc_names name mems).data = name.data ++ suffix := by
  induction mems generalizing name with
  | nil => exact ⟨[], (List.append_nil _).symm⟩
  | cons comp rest ih =>
    rw [build_family_name]
    by_cases hc : (pyStartsWith comp "BGC" &&
        !(hasSub (bgc_names comp).data name.data)) = true
    · rw [if_pos hc]
      obtain ⟨suf, hsuf⟩ := ih (name ++ "_" ++ bgc_names comp)
      refine ⟨('_' :: (bgc_names comp).data) ++ suf, ?_⟩
      rw [hsuf, String.data_append, String.data_append]
      simp
    · rw [if_neg hc]
      exact ih name

theorem family_name_for_data (bgc_names : String → String) (idx : Nat)
    (c : CompoundFamily) :
    ∃ rest : List Char,
      (family_name_for bgc_names idx c).data = (Nat.repr idx).data ++ '_' :: rest := by
  obtain ⟨suf, hsuf⟩ := build_family_name_shape bgc_names c.clusters
    (Nat.repr idx ++ "_" ++ c.compound_class)
  refine ⟨c.compound_class.data ++ suf, ?_⟩
  rw [family_name_for, hsuf, String.data_append, String.data_append]
  simp

theorem family_name_for_rank_inj (bgc_names : String → String) {i j : Nat}
    (c d : CompoundFamily) (hi : i ≠ 0) (hj : j ≠ 0) (hne : i ≠ j) :
    family_name_for bgc_names i c ≠ family_name_for bgc_names j d := by
  intro heq
  obtain ⟨r1, h1⟩ := family_name_for_data bgc_names i c
  obtain ⟨r2, h2⟩ := family_name_for_data bgc_names j d
  have hdata := congrArg String.data heq
  rw [h1, h2] at hdata
  exact hne (repr_underscore_inj hi hj hdata).1

theorem assigned_names_length (fams : List CompoundFamily)
    (bgc_names : String → String) :
    (assigned_names fams bgc_names).length = fams.length := by
  simp [assigned_names, ranked_families, List.enum_length,
    (pySorted_perm _ fams).length_eq, sort_families_desc]

theorem assigned_names_nodup (fams : List CompoundFamily)
    (bgc_names : String → String) : (assigned_names fams bgc_names).Nodup := by
  rw [List.nodup_iff_injective_get]
  intro k1 k2 heq
  rw [List.get_eq_getElem, List.get_eq_getElem] at heq
  simp only [assigned_names, ranked_families, List.getElem_map,
    List.getElem_enum] at heq
  by_cases hk : (k1 : Nat) = (k2 : Nat)
  · exact Fin.ext hk
  · have hne : (k1 : Nat) + 1 ≠ (k2 : Nat) + 1 := by omega
    exact absurd heq
      (family_name_for_rank_inj bgc_names _ _ (Nat.succ_ne_zero _)
        (Nat.succ_ne_zero _) hne)

theorem dictInsert_of_key_new {β : Type} (d : List (String × β)) (k : String)
    (v : β) (h : ∀ p ∈ d, p.1 ≠ k) : dictInsert d k v = d ++ [(k, v)] := by
  rw [dictInsert, if_neg]
  simp only [List.any_eq_true, decide_eq_true_eq, not_exists]
  intro p hcon
  exact h p hcon.1 hcon.2

theorem foldl_dictInsert_append {β : Type} (ps : List (String × β)) :
    ∀ d : List (String × β), ((d ++ ps).map Prod.fst).Nodup →
      ps.foldl (fun acc p => dictInsert acc p.1 p.2) d = d ++ ps := by
  induction ps with
  | nil => intro d _; simp
  | cons p ps ih =>
    intro d hnd
    have hkeys : ((d.map Prod.fst) ++ p.1 :: (ps.map Prod.fst)).Nodup := by
      simpa using hnd
    have hstep : dictInsert d p.1 p.2 = d ++ [p] := by
      apply dictInsert_of_key_new
      intro q hq heq
      have hdisj := List.disjoint_of_nodup_append hkeys
      exact hdisj (heq ▸ List.mem_map_of_mem Prod.fst hq)
        (List.mem_cons_self _ _)
    rw [List.foldl_cons, hstep]
    have hnd' : (((d ++ [p]) ++ ps).map Prod.fst).Nodup := by
      have : (d ++ [p]) ++ ps = d ++ p :: ps := by simp
      rw [this]
      exact hnd
    rw [ih (d ++ [p]) hnd']
    simp

theorem get_families_eq_pairs (fams : List CompoundFamily)
    (bgc_names : String → String) :
    get_families fams bgc_names = (ranked_families fams).map
      (fun ic => (family_name_for bgc_names ic.1 ic.2, ic.2.clusters)) := by
  have hfold : get_families fams bgc_names =
      ((ranked_families fams).map
        (fun ic => (family_name_for bgc_names ic.1 ic.2, ic.2.clusters))).foldl
        (fun acc p => dictInsert acc p.1 p.2) [] := by
    rw [get_families, List.foldl_map]
  rw [hfold]
  apply foldl_dictInsert_append
  have hkeys : ((ranked_families fams).map
      (fun ic => (family_name_for bgc_names ic.1 ic.2, ic.2.clusters))).map
        Prod.fst = assigned_names fams bgc_names := by
    rw [List.map_map]
    rfl
  simpa [hkeys] using assigned_names_nodup fams bgc_names

theorem get_families_length (fams : List CompoundFamily)
    (bgc_names : String → String) :
    (get_families fams bgc_names).length = fams.length := by
  rw [get_families_eq_pairs, List.length_map]
  have := assigned_names_length fams bgc_names
  simpa [assigned_names] using this

theorem count_filter_eq {α : Type} [DecidableEq α] (p : α → Bool) (l : List α)
    (a : α) :
    (l.filter p).count a = if p a = true then l.count a else 0 := by
  by_cases h : p a = true
  · rw [if_pos h, List.count_filter h]
  · rw [if_neg h, List.count_eq_zero]
    intro hmem
    exact h (List.mem_filter.mp hmem).2

theorem families_by_order_count
    (families_with_names : List (String × List String))
    (family_order : List String) (k : String) :
    (families_by_order families_with_names family_order).count k =
      (families_with_names.map Prod.fst).count k *
        (family_order.filter (fun t => pyStartsWith k (t ++ "_"))).length := by
  rw [families_by_order, List.count_flatMap]
  induction family_order with
  | nil => simp
  | cons t ts ih =>
    rw [List.map_cons, List.sum_cons, ih]
    by_cases h : pyStartsWith k (t ++ "_") = true
    · rw [List.filter_cons, if_pos h, List.length_cons]
      have : (List.count k ∘ fun number =>
          List.filter (fun x => pyStartsWith x (number ++ "_"))
            (List.map Prod.fst families_with_names)) t =
          (families_with_names.map Prod.fst).count k := by
        simp only [Function.comp_apply]
        rw [count_filter_eq, if_pos h]
      rw [this]
      ring
    · rw [List.filter_cons, if_neg h]
      have : (List.count k ∘ fun number =>
          List.filter (fun x => pyStartsWith x (number ++ "_"))
            (List.map Prod.fst families_with_names)) t = 0 := by
        simp only [Function.comp_apply]
        rw [count_filter_eq, if_neg h]
      rw [this]
      ring

theorem families_by_order_perm
    (families_with_names : List (String × List String))
    (family_order : List String)
    (hmatch : ∀ k ∈ families_with_names.map Prod.fst,
      (family_order.filter (fun t => pyStartsWith k (t ++ "_"))).length = 1) :
    (families_by_order families_with_names family_order).Perm
      (families_with_names.map Prod.fst) := by
  rw [List.perm_iff_count]
  intro a
  rw [families_by_order_count]
  by_cases ha : a ∈ families_with_names.map Prod.fst
  · rw [hmatch a ha, Nat.mul_one]
  · rw [List.count_eq_zero.mpr ha, Nat.zero_mul]

theorem dedupFirstAux_of_nodup {α : Type} [DecidableEq α] (l : List α) :
    ∀ seen : List α, l.Nodup → (∀ x ∈ l, x ∉ seen) →
      dedupFirstAux seen l = l := by
  induction l with
  | nil => intro seen _ _; rfl
  | cons x xs ih =>
    intro seen hnd hdisj
    have hseen : seen.any (fun y => decide (y = x)) = false := by
      simp only [List.any_eq_false, decide_eq_true_eq]
      rintro y hy rfl
      exact hdisj y (List.mem_cons_self y xs) hy
    rw [dedupFirstAux, hseen]
    rw [if_neg (by simp)]
    congr 1
    refine ih (x :: seen) (List.nodup_cons.mp hnd).2 ?_
    intro y hy hcon
    rcases List.mem_cons.mp hcon with rfl | hcon'
    · exact (List.nodup_cons.mp hnd).1 hy
    · exact hdisj y (List.mem_cons_of_mem _ hy) hcon'

theorem dedupFirst_of_nodup {α : Type} [DecidableEq α] (l : List α)
    (h : l.Nodup) : dedupFirst l = l :=
  dedupFirstAux_of_nodup l [] h (by simp)

theorem splitFieldsAux_ne_nil (sep : Char) (cs : List Char) :
    ∀ acc : List Char, splitFieldsAux sep acc cs ≠ [] := by
  induction cs with
  | nil => intro acc; simp [splitFieldsAux]
  | cons c cs ih =>
    intro acc
    rw [splitFieldsAux]
    by_cases h : c = sep
    · simp [h]
    · rw [if_neg h]
      exact ih (c :: acc)

theorem pySplitTab_ne_nil (s : String) : pySplitTab s ≠ [] :=
  splitFieldsAux_ne_nil '\t' s.data []

theorem getElem?_of_lt_length {α : Type} (l : List α) (i : Nat) (h : i < l.length) :
    ∃ v, l[i]? = some v := by
  cases hv : l[i]? with
  | none => exact absurd ((List.getElem?_eq_none_iff).mp hv) (by omega)
  | some v => exact ⟨v, rfl⟩

theorem process_summary_line_ok (st : SummaryState) (raw : String)
    (h : goodSummaryRow raw) :
    ∃ st' : SummaryState, process_summary_line st raw = .ok st' ∧
      st'.wrong_line_format =
        (st.wrong_line_format || decide ((pySplitTab (pyRstrip raw)).length ≠ 7)) := by
  obtain ⟨c0, tl, hline⟩ : ∃ c0 tl, pySplitTab (pyRstrip raw) = c0 :: tl := by
    cases hsp : pySplitTab (pyRstrip raw) with
    | nil => exact absurd hsp (pySplitTab_ne_nil _)
    | cons a b => exact ⟨a, b, rfl⟩
  rw [goodSummaryRow, hline] at h
  simp only [List.headD_cons] at h
  have hv0 : (pySplitTab (pyRstrip raw))[0]? = some c0 := by
    rw [hline]; simp
  by_cases hbgc : pyStartsWith c0 "BGC" = true
  · rw [if_pos hbgc] at h
    obtain ⟨v2, hv2⟩ := getElem?_of_lt_length (pySplitTab (pyRstrip raw)) 2
      (by rw [hline]; omega)
    obtain ⟨v4, hv4⟩ := getElem?_of_lt_length (pySplitTab (pyRstrip raw)) 4
      (by rw [hline]; omega)
    refine ⟨{ st with
        bgcs_with_names := dictInsert st.bgcs_with_names c0
          (sanitize (pyRemoveAll v2 " biosynthetic gene cluster")),
        clusters_with_types := dictInsert st.clusters_with_types c0 v4,
        wrong_line_format := st.wrong_line_format ||
          decide ((pySplitTab (pyRstrip raw)).length ≠ 7) }, ?_, rfl⟩
    rw [process_summary_line]
    simp [pyIndex, hv0, hv2, hv4, hbgc, bind, Except.bind, pure, Except.pure]
  · rw [if_neg hbgc] at h
    obtain ⟨v5, hv5⟩ := getElem?_of_lt_length (pySplitTab (pyRstrip raw)) 5
      (by rw [hline]; omega)
    obtain ⟨v4, hv4⟩ := getElem?_of_lt_length (pySplitTab (pyRstrip raw)) 4
      (by rw [hline]; omega)
    refine ⟨{ st with
        genomes_with_clusters :=
          add_genome_cluster st.genomes_with_clusters (sanitize v5) c0,
        clusters_with_types := dictInsert st.clusters_with_types c0 v4,
        wrong_line_format := st.wrong_line_format ||
          decide ((pySplitTab (pyRstrip raw)).length ≠ 7) }, ?_, rfl⟩
    rw [process_summary_line]
    simp [pyIndex, hv0, hv5, hv4, hbgc, bind, Except.bind, pure, Except.pure]

theorem parse_summary_lines_ok (lines : List String) : ∀ st : SummaryState,
    (∀ l ∈ lines, goodSummaryRow l) →
    ∃ st', parse_summary_lines st lines = .ok st' ∧
      st'.wrong_line_format = (st.wrong_line_format ||
        lines.any (fun l => decide ((pySplitTab (pyRstrip l)).length ≠ 7))) := by
  induction lines with
  | nil => intro st _; exact ⟨st, rfl, by simp⟩
  | cons l ls ih =>
    intro st hrows
    obtain ⟨st1, h1, hw1⟩ :=
      process_summary_line_ok st l (hrows l (List.mem_cons_self _ _))
    obtain ⟨st2, h2, hw2⟩ := ih st1 (fun x hx => hrows x (List.mem_cons_of_mem _ hx))
    refine ⟨st2, ?_, ?_⟩
    · rw [parse_summary_lines]
      simp [h1, bind, Except.bind, h2]
    · rw [hw2, hw1, List.any_cons]
      simp [Bool.or_assoc]

theorem mem_dictInsert {β : Type} (d : List (String × β)) (k : String) (v : β)
    (p : String × β) (hp : p ∈ dictInsert d k v) : p ∈ d ∨ p = (k, v) := by
  rw [dictInsert] at hp
  by_cases h : d.any (fun q => decide (q.1 = k)) = true
  · rw [if_pos h] at hp
    obtain ⟨q, hq, hqe⟩ := List.mem_map.mp hp
    by_cases hqk : q.1 = k
    · right; rw [← hqe]; simp [hqk]
    · left
      rw [← hqe]
      simp only [hqk, if_false]
      exact hq
  · rw [if_neg h] at hp
    rcases List.mem_append.mp hp with h1 | h1
    · exact Or.inl h1
    · right; simpa using h1

theorem mem_setAdd (s : List String) (x c : String) (h : c ∈ setAdd s x) :
    c ∈ s ∨ c = x := by
  rw [setAdd] at h
  by_cases ha : s.any (fun y => decide (y = x)) = true
  · rw [if_pos ha] at h; exact Or.inl h
  · rw [if_neg ha] at h
    rcases List.mem_append.mp h with h1 | h1
    · exact Or.inl h1
    · right; simpa using h1

theorem mem_add_genome_cluster (genomes : List (String × List String))
    (genome cluster : String) (p : String × List String)
    (hp : p ∈ add_genome_cluster genomes genome cluster) (c : String)
    (hc : c ∈ p.2) : (∃ q ∈ genomes, c ∈ q.2) ∨ c = cluster := by
  rw [add_genome_cluster] at hp
  by_cases h : genomes.any (fun q => decide (q.1 = genome)) = true
  · rw [if_pos h] at hp
    obtain ⟨q, hq, hqe⟩ := List.mem_map.mp hp
    by_cases hqk : q.1 = genome
    · rw [← hqe] at hc
      simp only [hqk, if_true] at hc
      rcases mem_setAdd q.2 cluster c hc with h1 | h1
      · exact Or.inl ⟨q, hq, h1⟩
      · exact Or.inr h1
    · rw [← hqe] at hc
      simp only [hqk, if_false] at hc
      exact Or.inl ⟨q, hq, hc⟩
  · rw [if_neg h] at hp
    rcases List.mem_append.mp hp with h1 | h1
    · exact Or.inl ⟨p, h1, hc⟩
    · simp only [List.mem_singleton] at h1
      rw [h1] at hc
      simp only [List.mem_singleton] at hc
      exact Or.inr hc

theorem process_summary_line_inv (st st' : SummaryState) (raw : String)
    (h : process_summary_line st raw = .ok st') (hinv : summaryInv st) :
    summaryInv st' := by
  rw [process_summary_line] at h
  cases hc0 : pyIndex (pySplitTab (pyRstrip raw)) 0 with
  | error e => rw [hc0] at h; simp [bind, Except.bind] at h
  | ok c0 =>
    rw [hc0] at h
    simp only [bind, Except.bind] at h
    by_cases hbgc : pyStartsWith c0 "BGC" = true
    · rw [if_pos hbgc] at h
      cases hc2 : pyIndex (pySplitTab (pyRstrip raw)) 2 with
      | error e => rw [hc2] at h; simp at h
      | ok v2 =>
        rw [hc2] at h
        cases hc4 : pyIndex (pySplitTab (pyRstrip raw)) 4 with
        | error e => rw [hc4] at h; simp at h
        | ok v4 =>
          rw [hc4] at h
          simp only [pure, Except.pure, Except.ok.injEq] at h
          subst h
          refine ⟨hinv.1, ?_⟩
          intro p hp
          rcases mem_dictInsert _ _ _ p hp with h1 | h1
          · exact hinv.2 p h1
          · rw [h1]; exact hbgc
    · rw [if_neg hbgc] at h
      cases hc5 : pyIndex (pySplitTab (pyRstrip raw)) 5 with
      | error e => rw [hc5] at h; simp at h
      | ok v5 =>
        rw [hc5] at h
        cases hc4 : pyIndex (pySplitTab (pyRstrip raw)) 4 with
        | error e => rw [hc4] at h; simp at h
        | ok v4 =>
          rw [hc4] at h
          simp only [pure, Except.pure, Except.ok.injEq] at h
          subst h
          refine ⟨?_, hinv.2⟩
          intro p hp c hc
          rcases mem_add_genome_cluster _ _ _ p hp c hc with ⟨q, hq, hcq⟩ | h1
          · exact hinv.1 q hq c hcq
          · rw [h1]
            exact Bool.eq_false_iff.mpr hbgc

theorem parse_summary_lines_inv (lines : List String) :
    ∀ st st' : SummaryState, parse_summary_lines st lines = .ok st' →
      summaryInv st → summaryInv st' := by
  induction lines with
  | nil =>
    intro st st' h hinv
    rw [parse_summary_lines] at h
    injection h with h
    exact h ▸ hinv
  | cons l ls ih =>
    intro st st' h hinv
    rw [parse_summary_lines] at h
    cases hc : process_summary_line st l with
    | error e => rw [hc] at h; simp [bind, Except.bind] at h
    | ok st1 =>
      rw [hc] at h
      simp only [bind, Except.bind] at h
      exact ih st1 st' h (process_summary_line_inv st st1 l hc hinv)

theorem foldl_append_shift (l : List String) :
    ∀ x y : String,
      l.foldl (fun r s => r ++ s) (x ++ y) = x ++ l.foldl (fun r s => r ++ s) y := by
  induction l with
  | nil => intro x y; rfl
  | cons a as ih =>
    intro x y
    simp only [List.foldl_cons]
    rw [String.append_assoc]
    exact ih x (y ++ a)

theorem join_cons (a : String) (l : List String) :
    String.join (a :: l) = a ++ String.join l := by
  rw [String.join, String.join, List.foldl_cons, String.empty_append]
  have h := foldl_append_shift l a ""
  rw [String.append_empty] at h
  exact h

theorem foldl_row_append (f : (String × List String) → String)
    (l : List (String × List String)) :
    ∀ init : String,
      l.foldl (fun acc g => acc ++ f g) init = init ++ String.join (l.map f) := by
  induction l with
  | nil => intro init; exact (String.append_empty init).symm
  | cons g gs ih =>
    intro init
    rw [List.foldl_cons, List.map_cons, join_cons, ih (init ++ f g),
      String.append_assoc]

theorem join_ends_newline (rows : List String)
    (hrows : ∀ r ∈ rows, ∃ s, r = s ++ "\n") :
    ∀ pre : String, (∃ s, pre = s ++ "\n") →
      ∃ s, pre ++ String.join rows = s ++ "\n" := by
  induction rows with
  | nil =>
    intro pre hpre
    obtain ⟨s, hs⟩ := hpre
    exact ⟨s, by rw [← hs]; exact String.append_empty pre⟩
  | cons r rs ih =>
    intro pre hpre
    rw [join_cons, ← String.append_assoc]
    refine ih (fun x hx => hrows x (List.mem_cons_of_mem _ hx)) (pre ++ r) ?_
    obtain ⟨s, hs⟩ := hrows r (List.mem_cons_self _ _)
    exact ⟨pre ++ s, by rw [hs, String.append_assoc]⟩

theorem intercalate_go_concat (s x : String) (l : List String) :
    ∀ acc : String, ∃ pre : String,
      String.intercalate.go acc s (l ++ [x]) = pre ++ x := by
  induction l with
  | nil => intro acc; exact ⟨acc ++ s, rfl⟩
  | cons a as ih => intro acc; exact ih (acc ++ s ++ a)

theorem intercalate_concat (s x : String) (l : List String) :
    ∃ pre : String, String.intercalate s (l ++ [x]) = pre ++ x := by
  cases l with
  | nil => exact ⟨"", (String.empty_append x).symm⟩
  | cons a as => exact intercalate_go_concat s x as a

theorem repr_data_ne_nil (n : Nat) : (Nat.repr n).data ≠ [] := by
  by_cases h : n = 0
  · subst h; decide
  · rw [repr_eq_digits n h]
    simp [Nat.digits_ne_nil_iff_ne_zero, h]

theorem append_str_getLast? (A B : String) (h : B.data ≠ []) :
    (A ++ B).data.getLast? = B.data.getLast? := by
  rw [String.data_append, List.getLast?_append]
  obtain ⟨L, b, hL⟩ := (List.eq_nil_or_concat B.data).resolve_left h
  rw [hL, List.concat_eq_append, List.getLast?_concat]
  rfl

theorem join_concat (l : List String) (r : String) :
    String.join (l ++ [r]) = String.join l ++ r := by
  rw [String.join, String.join, List.foldl_append, List.foldl_cons, List.foldl_nil]

theorem bigscape_decompose (all_families : List String)
    (families_with_clusters clusters_in_genomes : List (String × List String))
    (hg : sortGenomes clusters_in_genomes ≠ []) (hf : all_families ≠ []) :
    ∃ (pre : String) (n : Nat),
      bigscape_matrix_string all_families families_with_clusters
        clusters_in_genomes = pre ++ Nat.repr n := by
  rw [bigscape_matrix_string, foldl_row_append]
  obtain ⟨gs, glast, hgs⟩ := (List.eq_nil_or_concat _).resolve_left hg
  rw [hgs, List.concat_eq_append, List.map_append, List.map_cons, List.map_nil,
    join_concat]
  have hrow : ∃ (A : String) (n : Nat),
      bigscape_matrix_row_tab families_with_clusters all_families glast =
        A ++ Nat.repr n := by
    obtain ⟨ffs, flast, hfs⟩ := (List.eq_nil_or_concat all_families).resolve_left hf
    rw [bigscape_matrix_row_tab, hfs, List.concat_eq_append, List.map_append,
      List.map_cons, List.map_nil]
    obtain ⟨pre2, hpre2⟩ := intercalate_concat "\t"
      (Nat.repr ((setIntersection glast.2
        (lookupD families_with_clusters flast [])).length))
      (List.map (fun fam => Nat.repr ((setIntersection glast.2
        (lookupD families_with_clusters fam [])).length)) ffs)
    rw [hpre2]
    refine ⟨"\n" ++ glast.1 ++ "\t" ++ pre2,
      (setIntersection glast.2 (lookupD families_with_clusters flast [])).length,
      ?_⟩
    simp only [String.append_assoc]
  obtain ⟨A, n, hA⟩ := hrow
  rw [hA]
  refine ⟨"#NAMES\t" ++ String.intercalate "\t" all_families ++
    (String.join (List.map (bigscape_matrix_row_tab families_with_clusters
      all_families) gs) ++ A), n, ?_⟩
  simp only [String.append_assoc]

theorem abs_pres_matrix_trailing_newline
    (families_with_names clusters_in_genomes : List (String × List String))
    (leaf_order : List Nat) :
    ∃ s, get_absence_presence_matrix families_with_names clusters_in_genomes
      leaf_order = s ++ "\n" := by
  rw [get_absence_presence_matrix, matrix_csv, ← String.append_assoc]
  refine join_ends_newline _ ?_ _ ?_
  · intro r hr
    obtain ⟨g, _, hgr⟩ := List.mem_map.mp hr
    exact ⟨g.1 ++ "," ++ String.intercalate ","
      ((abs_pres_columns families_with_names leaf_order).map
        (fun f => Nat.repr ((setIntersection g.2
          (lookupD families_with_names f [])).length))), by rw [← hgr]; rfl⟩
  · exact ⟨"#NAMES" ++ ("," ++ String.intercalate ","
      (abs_pres_columns families_with_names leaf_order)),
      by simp only [String.append_assoc]⟩

theorem bigscape_last_digit (all_families : List String)
    (families_with_clusters clusters_in_genomes : List (String × List String))
    (hg : sortGenomes clusters_in_genomes ≠ []) (hf : all_families ≠ []) :
    ∃ d, (bigscape_matrix_string all_families families_with_clusters
        clusters_in_genomes).data.getLast? = some d ∧ d.isDigit = true ∧
      d ≠ '\n' := by
  obtain ⟨pre, n, hpre⟩ := bigscape_decompose all_families families_with_clusters
    clusters_in_genomes hg hf
  obtain ⟨L, d, hL⟩ :=
    (List.eq_nil_or_concat (Nat.repr n).data).resolve_left (repr_data_ne_nil n)
  have hdig : d.isDigit = true := by
    refine repr_data_isDigit n d ?_
    rw [hL, List.concat_eq_append]
    exact List.mem_append_right _ (List.mem_cons_self _ _)
  refine ⟨d, ?_, hdig, ?_⟩
  · rw [hpre, append_str_getLast? _ _ (repr_data_ne_nil n), hL,
      List.concat_eq_append, List.getLast?_concat]
  · intro hcon
    rw [hcon] at hdig
    exact absurd hdig (by decide)

/-! ## Claim theorems -/

/-- **C1 (amended).** For every input edge table (the concatenation of the
similarity files) and every ordered cluster pair `(a, b)` occurring in it,
the merged output of `merge_all_bigscape_networks` contains exactly one
row whose cluster columns are `(a, b)`, and that row's `Raw distance`
equals the arithmetic mean of the raw distances of all input rows whose
concatenation key `Clustername 1 + Clustername 2` equals `a ++ b`. The
original claim's grouping by *unordered* pair is refuted by
`claim_C1_counterexample`: only rows listing the pair in the same column
order are merged. -/
theorem claim_C1_merge_mean_per_ordered_pair (rows : List NetworkRow)
    (a b : String) (h : ∃ r ∈ rows, r.clustername1 = a ∧ r.clustername2 = b) :
    (orderedPairRows (merge_all_bigscape_networks rows) a b).length = 1 ∧
      ∀ r ∈ orderedPairRows (merge_all_bigscape_networks rows) a b,
        r.rawDistance = groupMeanDistance rows (a ++ b) :=
  merge_one_row_per_ordered_pair rows a b h

/-- **C1 witness.** The claim's example in the orientation the code does
merge: both input rows pair `Cluster_1` with `Cluster_2` in the same
column order, and the merged table has exactly one such row carrying the
group mean. -/
theorem claim_C1_witness :
    (orderedPairRows
        (merge_all_bigscape_networks
          [⟨"Cluster_1", "Cluster_2", 3/10⟩, ⟨"Cluster_1", "Cluster_2", 2/5⟩])
        "Cluster_1" "Cluster_2").length = 1 ∧
      ∀ r ∈ orderedPairRows
          (merge_all_bigscape_networks
            [⟨"Cluster_1", "Cluster_2", 3/10⟩, ⟨"Cluster_1", "Cluster_2", 2/5⟩])
          "Cluster_1" "Cluster_2",
        r.rawDistance = groupMeanDistance
          [⟨"Cluster_1", "Cluster_2", 3/10⟩, ⟨"Cluster_1", "Cluster_2", 2/5⟩]
          ("Cluster_1" ++ "Cluster_2") :=
  claim_C1_merge_mean_per_ordered_pair
    [⟨"Cluster_1", "Cluster_2", 3/10⟩, ⟨"Cluster_1", "Cluster_2", 2/5⟩]
    "Cluster_1" "Cluster_2"
    ⟨⟨"Cluster_1", "Cluster_2", 3/10⟩, List.mem_cons_self _ _, rfl, rfl⟩

/-- **C1 counterexample.** Two input rows pairing the same two clusters in
opposite column orders share the unordered pair `{Cluster_1, Cluster_2}`,
yet the merged output keeps two separate rows for that unordered pair:
the claimed "exactly one row per unordered cluster pair" is false. -/
theorem claim_C1_counterexample :
    (unorderedPairRows
        (merge_all_bigscape_networks
          [⟨"Cluster_1", "Cluster_2", 3/10⟩, ⟨"Cluster_2", "Cluster_1", 2/5⟩])
        "Cluster_1" "Cluster_2").length = 2 ∧
      (unorderedPairRows
        (merge_all_bigscape_networks
          [⟨"Cluster_1", "Cluster_2", 3/10⟩, ⟨"Cluster_2", "Cluster_1", 2/5⟩])
        "Cluster_1" "Cluster_2").length ≠ 1 := by
  constructor <;> decide

/-- **C9.** The duplicate-collapsing key of `merge_all_bigscape_networks`
is the bare concatenation of the two cluster-id columns: the distinct
cluster pairs `("A", "BC")` and `("AB", "C")` receive the same key
`"ABC"`, land in the same `groupby` group, and both output rows carry
that single group's mean distance. -/
theorem claim_C9_bare_concat_key_collision :
    matchName ⟨"A", "BC", 3/10⟩ = matchName ⟨"AB", "C", 2/5⟩ ∧
      ("A", "BC") ≠ ("AB", "C") ∧
      groupRows [⟨"A", "BC", 3/10⟩, ⟨"AB", "C", 2/5⟩] "ABC" =
        [⟨"A", "BC", 3/10⟩, ⟨"AB", "C", 2/5⟩] ∧
      merge_all_bigscape_networks [⟨"A", "BC", 3/10⟩, ⟨"AB", "C", 2/5⟩] =
        [⟨"A", "BC", groupMeanDistance [⟨"A", "BC", 3/10⟩, ⟨"AB", "C", 2/5⟩] "ABC"⟩,
         ⟨"AB", "C", groupMeanDistance [⟨"A", "BC", 3/10⟩, ⟨"AB", "C", 2/5⟩] "ABC"⟩] :=
  ⟨rfl, by decide, rfl, rfl⟩

/-- **C2.** The matrix entry produced for a (family, genome) pair — the
`i`-th entry of the family's column, where `i` is the genome's position
among the sorted genomes — equals the cardinality of the intersection of
the genome's cluster set and the family's cluster set; it is zero when
the two sets are disjoint and never exceeds the smaller of the two sets'
cardinalities. -/
theorem claim_C2_matrix_entry_is_inter_card
    (families_with_names clusters_in_genomes : List (String × List String))
    (family : String) (i : Nat) (g : String × List String)
    (hg : (sortGenomes clusters_in_genomes).get? i = some g)
    (hnd : g.2.Nodup) :
    (abs_pres_counts families_with_names clusters_in_genomes family).get? i =
      some ((g.2.toFinset ∩ (lookupD families_with_names family []).toFinset).card) ∧
      (g.2.toFinset ∩ (lookupD families_with_names family []).toFinset = ∅ →
        (abs_pres_counts families_with_names clusters_in_genomes family).get? i =
          some 0) ∧
      ∀ n, (abs_pres_counts families_with_names clusters_in_genomes family).get? i =
          some n →
        n ≤ min g.2.toFinset.card (lookupD families_with_names family []).toFinset.card := by
  have hentry :
      (abs_pres_counts families_with_names clusters_in_genomes family).get? i =
        some ((g.2.toFinset ∩ (lookupD families_with_names family []).toFinset).card) := by
    rw [abs_pres_counts, List.get?_map, hg, Option.map_some']
    rw [setIntersection_length_eq_card_inter _ _ hnd]
  refine ⟨hentry, ?_, ?_⟩
  · intro hdisj
    rw [hentry, hdisj]
    simp
  · intro n hn
    rw [hentry] at hn
    obtain rfl : (g.2.toFinset ∩ (lookupD families_with_names family []).toFinset).card = n := by
      injection hn
    exact le_min (Finset.card_le_card Finset.inter_subset_left)
      (Finset.card_le_card Finset.inter_subset_right)

/-- **C2 witness.** Concrete instance: genome `org1` holds `{c1, c3}`,
family `1_test` holds `{c1, c2}`, and the entry is `1 = |{c1}|`. -/
theorem claim_C2_witness :
    (abs_pres_counts [("1_test", ["c1", "c2"])] [("org1", ["c1", "c3"])]
        "1_test").get? 0 =
      some ((["c1", "c3"].toFinset ∩
        (lookupD [("1_test", ["c1", "c2"])] "1_test" []).toFinset).card) ∧
      ((["c1", "c3"].toFinset ∩
          (lookupD [("1_test", ["c1", "c2"])] "1_test" []).toFinset = ∅ →
        (abs_pres_counts [("1_test", ["c1", "c2"])] [("org1", ["c1", "c3"])]
          "1_test").get? 0 = some 0)) ∧
      ∀ n, (abs_pres_counts [("1_test", ["c1", "c2"])] [("org1", ["c1", "c3"])]
          "1_test").get? 0 = some n →
        n ≤ min (["c1", "c3"] : List String).toFinset.card
          (lookupD [("1_test", ["c1", "c2"])] "1_test" []).toFinset.card :=
  claim_C2_matrix_entry_is_inter_card [("1_test", ["c1", "c2"])]
    [("org1", ["c1", "c3"])] "1_test" 0 ("org1", ["c1", "c3"])
    (by decide) (by decide)

/-- **C3.** `get_connected_from_df` never returns a connected component
whose every member carries the reference-cluster prefix `"BGC"`: every
returned `CompoundFamily` has at least one member without that prefix. -/
theorem claim_C3_no_reference_only_family (network_df : List NetworkRow)
    (cluster_types : String → String) (fam : CompoundFamily)
    (hfam : fam ∈ get_connected_from_df network_df cluster_types) :
    ∃ c ∈ fam.clusters, pyStartsWith c "BGC" = false := by
  rw [get_connected_from_df] at hfam
  obtain ⟨comp, hcomp, rfl⟩ := List.mem_map.mp hfam
  have h2 := (List.mem_filter.mp hcomp).2
  rw [decide_eq_true_eq] at h2
  rw [List.all_eq_true] at h2
  push_neg at h2
  obtain ⟨c, hc, hcns⟩ := h2
  exact ⟨c, hc, by simpa using hcns⟩

/-- **C3 witness.** A component joining a query cluster to a reference
cluster is returned and indeed holds the non-reference member
`Cluster_1`. -/
theorem claim_C3_witness :
    ∃ c ∈ (CompoundFamily.mk "test" ["Cluster_1", "BGC_2"]).clusters,
      pyStartsWith c "BGC" = false :=
  claim_C3_no_reference_only_family [⟨"Cluster_1", "BGC_2", 3/10⟩]
    (fun _ => "test") ⟨"test", ["Cluster_1", "BGC_2"]⟩ (by decide)

/-- **C4.** `get_families` processes families in order of descending
cardinality (the processing order is a permutation of the input, pairwise
sorted by descending member count), assigns the family at rank `r`
(starting at 1) the base name `str(r) + "_" + compound_class`, then walks
the members and appends `"_" + display-name` for each `"BGC"`-prefixed
member exactly when that display name is not yet a substring of the name
accumulated so far; afterwards every reference member's display name is a
substring of the final name. -/
theorem claim_C4_naming_scheme (fams : List CompoundFamily)
    (bgc_names : String → String) :
    (sort_families_desc fams).Perm fams ∧
      (sort_families_desc fams).Pairwise
        (fun a b => b.clusters.length ≤ a.clusters.length) ∧
      (∀ i : Nat, (assigned_names fams bgc_names).get? i =
        ((sort_families_desc fams).get? i).map (family_name_for bgc_names (i + 1))) ∧
      (∀ idx c, family_name_for bgc_names idx c =
        build_family_name bgc_names (Nat.repr idx ++ "_" ++ c.compound_class)
          c.clusters) ∧
      (∀ name comp rest, build_family_name bgc_names name (comp :: rest) =
        if pyStartsWith comp "BGC" && !(hasSub (bgc_names comp).data name.data)
        then build_family_name bgc_names (name ++ "_" ++ bgc_names comp) rest
        else build_family_name bgc_names name rest) ∧
      (∀ name mems m, m ∈ mems → pyStartsWith m "BGC" = true →
        hasSub (bgc_names m).data
          (build_family_name bgc_names name mems).data = true) := by
  refine ⟨?_, ?_, ?_, ?_, ?_, ?_⟩
  · exact pySorted_perm _ fams
  · have hp := pySorted_pairwise
      (fun a b : CompoundFamily => decide (b.clusters.length ≤ a.clusters.length))
      (fun a b c hab hbc => by
        rw [decide_eq_true_eq] at *
        exact Nat.le_trans hbc hab)
      (fun a b => by
        rcases Nat.le_total b.clusters.length a.clusters.length with h | h
        · exact Or.inl (decide_eq_true h)
        · exact Or.inr (decide_eq_true h))
      fams
    exact hp.imp (fun h => of_decide_eq_true h)
  · intro i
    simp only [assigned_names, ranked_families, List.get?_eq_getElem?,
      List.getElem?_map, List.getElem?_enum, Option.map_map]
    cases (sort_families_desc fams)[i]? <;> rfl
  · intro idx c
    rfl
  · intro name comp rest
    rfl
  · intro name mems m hm hbgc
    exact build_family_name_contains bgc_names mems name m hm hbgc

/-- **C4 witness.** Concrete instance: the single family of class `test`
with members `c1` and `BGC_1` is its own sorted order, and the display
name of `BGC_1` is a substring of the built name. -/
theorem claim_C4_witness :
    (sort_families_desc [⟨"test", ["c1", "BGC_1"]⟩]).Perm
        [(⟨"test", ["c1", "BGC_1"]⟩ : CompoundFamily)] ∧
      hasSub "Testomycin".data
        (build_family_name (fun _ => "Testomycin") "1_test"
          ["c1", "BGC_1"]).data = true :=
  ⟨(claim_C4_naming_scheme [⟨"test", ["c1", "BGC_1"]⟩] (fun _ => "Testomycin")).1,
   (claim_C4_naming_scheme [⟨"test", ["c1", "BGC_1"]⟩]
      (fun _ => "Testomycin")).2.2.2.2.2 "1_test" ["c1", "BGC_1"] "BGC_1"
     (by decide) (by decide)⟩

/-- **C8 (amended).** Distinct families always receive distinct final
names: every final name starts with the family's rank followed by an
underscore, ranks are distinct positive numbers whose decimal renderings
contain only digit characters, so no two names can coincide. Hence
`get_families` is exactly the association list of (name, clusters) pairs
in processing order, with one entry per input family — the dict-overwrite
path that would keep only the later family's clusters is unreachable. -/
theorem claim_C8_names_never_collide (fams : List CompoundFamily)
    (bgc_names : String → String) :
    (assigned_names fams bgc_names).Nodup ∧
      get_families fams bgc_names = (ranked_families fams).map
        (fun ic => (family_name_for bgc_names ic.1 ic.2, ic.2.clusters)) ∧
      (get_families fams bgc_names).length = fams.length :=
  ⟨assigned_names_nodup fams bgc_names, get_families_eq_pairs fams bgc_names,
    get_families_length fams bgc_names⟩

/-- **C8 counterexample (negation of the claim).** The claimed scenario —
"the returned mapping can have fewer entries than the number of input
families" — is impossible: `get_families` always returns exactly one
entry per input family. -/
theorem claim_C8_counterexample : ¬ get_families_can_drop_families := by
  rintro ⟨fams, bgc_names, hlt⟩
  rw [get_families_length fams bgc_names] at hlt
  exact Nat.lt_irrefl _ hlt

/-- **C6 (amended).** For a family mapping with duplicate-free keys and an
explicit order list that passes the duplicate and length validations, and
such that every family name is matched by exactly one order token (its
name starts with `token + "_"`), the column order produced by the
explicit-order policy is a permutation of the family names — the set of
columns equals the set of family names, the length is preserved — and
`get_preordered_matrix` serializes the matrix with exactly those columns.
Without the exactly-one-match assumption the permutation property fails
(`claim_C6_counterexample`). -/
theorem claim_C6_explicit_order_permutation
    (families_with_names clusters_in_genomes : List (String × List String))
    (family_order : List String)
    (hdup : family_order.Nodup)
    (hlen : families_with_names.length = family_order.length)
    (hkeys : (families_with_names.map Prod.fst).Nodup)
    (hmatch : ∀ k ∈ families_with_names.map Prod.fst,
      (family_order.filter (fun t => pyStartsWith k (t ++ "_"))).length = 1) :
    (families_by_order families_with_names family_order).Perm
        (families_with_names.map Prod.fst) ∧
      (families_by_order families_with_names family_order).toFinset =
        (families_with_names.map Prod.fst).toFinset ∧
      (families_by_order families_with_names family_order).length =
        families_with_names.length ∧
      get_preordered_matrix families_with_names clusters_in_genomes
          family_order =
        .ok ("#NAMES" ++ matrix_csv families_with_names clusters_in_genomes
          (families_by_order families_with_names family_order)) := by
  have hperm := families_by_order_perm families_with_names family_order hmatch
  refine ⟨hperm, ?_, ?_, ?_⟩
  · ext a
    simp [List.mem_toFinset, hperm.mem_iff]
  · rw [hperm.length_eq, List.length_map]
  · rw [get_preordered_matrix, if_pos hlen]
    rw [dedupFirst_of_nodup _ (hperm.nodup_iff.mpr hkeys)]

/-- **C6 witness.** Concrete instance with two families `1_x`, `2_y` and
the order `["2", "1"]`: every validation passes, every token matches
exactly one family, and the produced columns permute the family names. -/
theorem claim_C6_witness :
    (families_by_order [("1_x", ["c1"]), ("2_y", ["c2"])] ["2", "1"]).Perm
        ([("1_x", ["c1"]), ("2_y", ["c2"])].map Prod.fst) ∧
      (families_by_order [("1_x", ["c1"]), ("2_y", ["c2"])] ["2", "1"]).toFinset =
        (([("1_x", ["c1"]), ("2_y", ["c2"])] :
          List (String × List String)).map Prod.fst).toFinset ∧
      (families_by_order [("1_x", ["c1"]), ("2_y", ["c2"])] ["2", "1"]).length =
        ([("1_x", ["c1"]), ("2_y", ["c2"])] : List (String × List String)).length ∧
      get_preordered_matrix [("1_x", ["c1"]), ("2_y", ["c2"])]
          [("org", ["c1"])] ["2", "1"] =
        .ok ("#NAMES" ++ matrix_csv [("1_x", ["c1"]), ("2_y", ["c2"])]
          [("org", ["c1"])]
          (families_by_order [("1_x", ["c1"]), ("2_y", ["c2"])] ["2", "1"])) :=
  claim_C6_explicit_order_permutation [("1_x", ["c1"]), ("2_y", ["c2"])]
    [("org", ["c1"])] ["2", "1"] (by decide) (by decide) (by decide)
    (by decide)

/-- **C6 counterexample.** With families `1_x`, `2_y` and the order
`["1", "3"]` both validations pass (no duplicate token, two tokens for
two families), yet token `"3"` matches no family: the resulting column
order is `["1_x"]`, not a permutation of the family names. -/
theorem claim_C6_counterexample :
    (["1", "3"] : List String).Nodup ∧
      ([("1_x", ["c1"]), ("2_y", ["c2"])] :
        List (String × List String)).length = (["1", "3"] : List String).length ∧
      families_by_order [("1_x", ["c1"]), ("2_y", ["c2"])] ["1", "3"] = ["1_x"] ∧
      ¬ (families_by_order [("1_x", ["c1"]), ("2_y", ["c2"])] ["1", "3"]).Perm
          ([("1_x", ["c1"]), ("2_y", ["c2"])].map Prod.fst) := by
  refine ⟨by decide, by decide, by decide, ?_⟩
  intro hperm
  exact absurd hperm.length_eq (by decide)

/-- **C5 (amended).** For every annotation table whose header line starts
with the expected token, parsing completes without raising on data rows of
any field count as long as the fields the code actually indexes exist
(reference rows need at least 5 fields, genome rows at least 6); rows with
a field count other than 7 are only tallied, the single aggregated warning
flag is reported after parsing finishes, and the three mappings are still
returned. Rows missing an accessed field raise an `IndexError`
(`claim_C5_counterexample`), refuting the unrestricted original claim. -/
theorem claim_C5_malformed_rows (header : String) (rest : List String)
    (hheader : pyStartsWith header "BGC" = true)
    (hrows : ∀ l ∈ rest, goodSummaryRow l) :
    ∃ g b t w, map_clusters_to_names (header :: rest) = .ok (g, b, t, w) ∧
      w = rest.any (fun l => decide ((pySplitTab (pyRstrip l)).length ≠ 7)) := by
  obtain ⟨st, hst, hw⟩ := parse_summary_lines_ok rest initSummaryState hrows
  refine ⟨st.genomes_with_clusters, st.bgcs_with_names, st.clusters_with_types,
    st.wrong_line_format, ?_, ?_⟩
  · rw [map_clusters_to_names]
    rw [if_pos hheader]
    simp [hst, bind, Except.bind, pure, Except.pure]
  · rw [hw]
    simp [initSummaryState]

/-- **C5 witness.** A table with a 7-field row and a 6-field row parses to
`ok` with the warning flag set. -/
theorem claim_C5_witness :
    ∃ g b t w,
      map_clusters_to_names ["BGC header",
        "c1\ta\tb\tc\tNRPS\tOrg 1\tx", "c2\ta\tb\tc\tPKS\tOrg 2"] =
        .ok (g, b, t, w) ∧
      w = ["c1\ta\tb\tc\tNRPS\tOrg 1\tx", "c2\ta\tb\tc\tPKS\tOrg 2"].any
        (fun l => decide ((pySplitTab (pyRstrip l)).length ≠ 7)) :=
  claim_C5_malformed_rows "BGC header"
    ["c1\ta\tb\tc\tNRPS\tOrg 1\tx", "c2\ta\tb\tc\tPKS\tOrg 2"]
    (by decide) (by decide)

/-- **C5 counterexample.** A 2-field data row has a field count different
from 7, yet parsing raises an `IndexError` instead of completing with a
warning. -/
theorem claim_C5_counterexample :
    (pySplitTab (pyRstrip "c1\tx")).length ≠ 7 ∧
      map_clusters_to_names ["BGC header", "c1\tx"] =
        .error "IndexError: list index out of range" :=
  ⟨by decide, by rfl⟩

/-- **C10.** For every annotation table accepted by
`map_clusters_to_names`, the genome→cluster-set mapping and the
reference-id→display-name mapping have disjoint domains: no cluster id
carrying the `"BGC"` prefix appears in any genome's cluster set, and every
key of the display-name mapping carries the `"BGC"` prefix. -/
theorem claim_C10_domains (lines : List String)
    (g : List (String × List String)) (b t : List (String × String)) (w : Bool)
    (h : map_clusters_to_names lines = .ok (g, b, t, w)) :
    (∀ p ∈ g, ∀ c ∈ p.2, pyStartsWith c "BGC" = false) ∧
      ∀ p ∈ b, pyStartsWith p.1 "BGC" = true := by
  match lines with
  | [] => simp [map_clusters_to_names] at h
  | header :: rest =>
    rw [map_clusters_to_names] at h
    by_cases hh : pyStartsWith header "BGC" = true
    · rw [if_pos hh] at h
      cases hp : parse_summary_lines initSummaryState rest with
      | error e => rw [hp] at h; simp [bind, Except.bind] at h
      | ok st =>
        rw [hp] at h
        simp only [bind, Except.bind, pure, Except.pure, Except.ok.injEq,
          Prod.mk.injEq] at h
        have hinv := parse_summary_lines_inv rest initSummaryState st hp
          ⟨by simp [initSummaryState], by simp [initSummaryState]⟩
        obtain ⟨hg, hb, -, -⟩ := h
        exact ⟨hg ▸ hinv.1, hb ▸ hinv.2⟩
    · rw [if_neg hh] at h
      simp at h

/-- **C10 witness.** A table holding one genome row and one reference row
parses to mappings satisfying both disjointness properties. -/
theorem claim_C10_witness :
    (∀ p ∈ [("Org_1", ["c1"])], ∀ c ∈ p.2, pyStartsWith c "BGC" = false) ∧
      ∀ p ∈ [("BGC_1", "Testomycin")], pyStartsWith p.1 "BGC" = true :=
  claim_C10_domains
    ["BGC header", "c1\ta\tb\tc\tNRPS\tOrg 1\tx",
      "BGC_1\ta\tTestomycin biosynthetic gene cluster\tb\tother"]
    [("Org_1", ["c1"])] [("BGC_1", "Testomycin")]
    [("c1", "NRPS"), ("BGC_1", "other")] true (by rfl)
/-- **C7 (amended).** The serialized absence/presence matrix is a header
row beginning with the marker token `"#NAMES"` followed by the family
names, then one row per genome (genome name followed by its per-family
counts), comma-separated in the CSV-style variant and tab-separated in
the non-clustered variant. The CSV-style variant terminates every row,
the last included, with a newline — so the document ends with a trailing
newline, contrary to the original claim (`claim_C7_counterexample`) —
while the tab-separated variant ends with the last count's final digit
and has no trailing newline. -/
theorem claim_C7_serialization_shape
    (families_with_names clusters_in_genomes : List (String × List String))
    (leaf_order : List Nat) (all_families : List String)
    (families_with_clusters clusters_in_genomes2 : List (String × List String))
    (hg2 : sortGenomes clusters_in_genomes2 ≠ []) (hf2 : all_families ≠ []) :
    get_absence_presence_matrix families_with_names clusters_in_genomes
        leaf_order =
      "#NAMES" ++ ("," ++ String.intercalate ","
          (abs_pres_columns families_with_names leaf_order) ++ "\n" ++
        String.join ((sortGenomes clusters_in_genomes).map
          (matrix_row_csv families_with_names
            (abs_pres_columns families_with_names leaf_order)))) ∧
      (∃ s, get_absence_presence_matrix families_with_names clusters_in_genomes
        leaf_order = s ++ "\n") ∧
      bigscape_matrix_string all_families families_with_clusters
          clusters_in_genomes2 =
        "#NAMES\t" ++ String.intercalate "\t" all_families ++
          String.join ((sortGenomes clusters_in_genomes2).map
            (bigscape_matrix_row_tab families_with_clusters all_families)) ∧
      ∃ d, (bigscape_matrix_string all_families families_with_clusters
          clusters_in_genomes2).data.getLast? = some d ∧ d.isDigit = true ∧
        d ≠ '\n' := by
  refine ⟨rfl, abs_pres_matrix_trailing_newline _ _ _, ?_, ?_⟩
  · rw [bigscape_matrix_string, foldl_row_append, String.append_assoc]
  · exact bigscape_last_digit all_families families_with_clusters
      clusters_in_genomes2 hg2 hf2

/-- **C7 witness.** The repository's own test fixtures: the CSV variant
ends with a newline, the tab variant ends with a digit. -/
theorem claim_C7_witness :
    get_absence_presence_matrix
        [("1_test", ["Cluster_1", "Cluster_2", "Cluster_3"]),
          ("2_test", ["Cluster_4", "Cluster_5"])]
        [("Test_org_1", ["Cluster_1"]),
          ("Test_org_2", ["Cluster_3", "Cluster_4"]),
          ("Test_org_3", ["Cluster_5"])] [0, 1] =
      "#NAMES" ++ ("," ++ String.intercalate ","
          (abs_pres_columns
            [("1_test", ["Cluster_1", "Cluster_2", "Cluster_3"]),
              ("2_test", ["Cluster_4", "Cluster_5"])] [0, 1]) ++ "\n" ++
        String.join ((sortGenomes
            [("Test_org_1", ["Cluster_1"]),
              ("Test_org_2", ["Cluster_3", "Cluster_4"]),
              ("Test_org_3", ["Cluster_5"])]).map
          (matrix_row_csv
            [("1_test", ["Cluster_1", "Cluster_2", "Cluster_3"]),
              ("2_test", ["Cluster_4", "Cluster_5"])]
            (abs_pres_columns
              [("1_test", ["Cluster_1", "Cluster_2", "Cluster_3"]),
                ("2_test", ["Cluster_4", "Cluster_5"])] [0, 1])))) ∧
      (∃ s, get_absence_presence_matrix
          [("1_test", ["Cluster_1", "Cluster_2", "Cluster_3"]),
            ("2_test", ["Cluster_4", "Cluster_5"])]
          [("Test_org_1", ["Cluster_1"]),
            ("Test_org_2", ["Cluster_3", "Cluster_4"]),
            ("Test_org_3", ["Cluster_5"])] [0, 1] = s ++ "\n") ∧
      bigscape_matrix_string ["1", "2"]
          [("1", ["Cluster_1"]), ("2", ["Cluster_4"])]
          [("Test_org_1", ["Cluster_1"])] =
        "#NAMES\t" ++ String.intercalate "\t" ["1", "2"] ++
          String.join ((sortGenomes [("Test_org_1", ["Cluster_1"])]).map
            (bigscape_matrix_row_tab [("1", ["Cluster_1"]), ("2", ["Cluster_4"])]
              ["1", "2"])) ∧
      ∃ d, (bigscape_matrix_string ["1", "2"]
          [("1", ["Cluster_1"]), ("2", ["Cluster_4"])]
          [("Test_org_1", ["Cluster_1"])]).data.getLast? = some d ∧
        d.isDigit = true ∧ d ≠ '\n' :=
  claim_C7_serialization_shape
    [("1_test", ["Cluster_1", "Cluster_2", "Cluster_3"]),
      ("2_test", ["Cluster_4", "Cluster_5"])]
    [("Test_org_1", ["Cluster_1"]), ("Test_org_2", ["Cluster_3", "Cluster_4"]),
      ("Test_org_3", ["Cluster_5"])] [0, 1] ["1", "2"]
    [("1", ["Cluster_1"]), ("2", ["Cluster_4"])] [("Test_org_1", ["Cluster_1"])]
    (by decide) (by decide)

/-- **C7 counterexample.** On the repository's own test fixture the
CSV-style serialization ends with a trailing newline, refuting "no
trailing newline at the end of the document". -/
theorem claim_C7_counterexample :
    get_absence_presence_matrix
        [("1_test", ["Cluster_1", "Cluster_2", "Cluster_3"]),
          ("2_test", ["Cluster_4", "Cluster_5"])]
        [("Test_org_1", ["Cluster_1"]),
          ("Test_org_2", ["Cluster_3", "Cluster_4"]),
          ("Test_org_3", ["Cluster_5"])] [0, 1] =
      "#NAMES,1_test,2_test\nTest_org_1,1,0\nTest_org_2,1,1\nTest_org_3,0,1\n" ∧
      (get_absence_presence_matrix
        [("1_test", ["Cluster_1", "Cluster_2", "Cluster_3"]),
          ("2_test", ["Cluster_4", "Cluster_5"])]
        [("Test_org_1", ["Cluster_1"]),
          ("Test_org_2", ["Cluster_3", "Cluster_4"]),
          ("Test_org_3", ["Cluster_5"])] [0, 1]).data.getLast? = some '\n' :=
  ⟨rfl, by decide⟩
end AbsPresTree
